import Mathlib

/-!
Shallow embedding of `src/base/core/lib/ocaml_utils_stubs.c`, the C/OCaml
interoperability helpers of this repository: exception construction and
raising, named-value lookup, out-of-memory signalling, string/int option
conversion across the boundary, and array mapping into native memory.

Modelling conventions:

* An OCaml `value` is `OCamlValue`: an immediate (tagged) integer, a heap
  block with a tag and a list of fields, or a string block carrying its bytes.
* C control flow that can raise into the OCaml runtime is modelled as
  `Except CamlExn _`; an `Except.error` result is a divert (the C function
  transfers control to the runtime's raise mechanism and never returns
  normally to its caller).
* The native (`malloc`) heap is a list of blocks; a pointer is the index of a
  block, and a nullable pointer is `Option Nat`, with `none` standing for the
  C null pointer.  `malloc` may fail: success is governed by an explicit
  `ok : Bool` oracle argument, so theorems quantify over both outcomes.
* A C `int` is 32 bits wide, `unsigned int` wraps modulo `2 ^ 32`, `size_t`
  is 64 bits wide, and an OCaml immediate integer is 63 bits wide (the
  standard 64-bit platform model).  Every narrowing the source performs is
  modelled explicitly: the store `*i = Long_val(...)` through an `int*`, the
  assignment of `caml_string_length` (an `mlsize_t`) to `int length` in
  `string_ocaml_to_c`, and the assignment of `Wosize_val` to
  `unsigned int length` in `array_map` all reduce modulo `2 ^ 32` (signed
  narrowings two's-complement, as every mainstream ABI defines them).
* `Begin_roots3` / `End_roots` only instruct the garbage collector, which is
  not part of this model, so they have no observable effect here.
-/

namespace OcamlUtils

/-- Model of the OCaml `value` type: an immediate integer, a heap block with a
tag and fields, or a string block with its byte contents. -/
inductive OCamlValue where
  | vint (n : Int)
  | vblock (tag : Nat) (fields : List OCamlValue)
  | vstring (bytes : List Nat)

/-- Model of an exception diverted into the OCaml runtime: either
`caml_failwith msg` (a `Failure msg` exception) or `caml_raise v` /
`caml_raise_constant v` with an exception value `v`. -/
inductive CamlExn where
  | failure (msg : List Char)
  | raised (v : OCamlValue)

/-- Model of the `Field(v, i)` accessor: the `i`-th field of a heap block.
On an immediate or out of range the C accessor is undefined behaviour; the
model returns a default. -/
def Field : OCamlValue → Nat → OCamlValue
  | .vblock _ fields, i => fields.getD i (.vint 0)
  | .vint _, _ => .vint 0
  | .vstring _, _ => .vint 0

/-- Model of `Long_val v`: the integer carried by an immediate value
(undefined behaviour on blocks, modelled by a default). -/
def Long_val : OCamlValue → Int
  | .vint n => n
  | _ => 0

/-- Model of `Wosize_val v`: the number of fields of a heap block. -/
def Wosize_val : OCamlValue → Nat
  | .vblock _ fields => fields.length
  | _ => 0

/-- Model of `caml_string_length`: the logical byte length of a string
block. -/
def caml_string_length : OCamlValue → Nat
  | .vstring bytes => bytes.length
  | _ => 0

/-- Modelled from the spec: the option encoding of the repository's macros
header (`ocaml_utils_macros.h`, not present under `src/`): `None` is the
immediate integer `0` (`Val_none`), so `Is_none` tests for it. -/
def Is_none : OCamlValue → Bool
  | .vint 0 => true
  | _ => false

/-- Modelled from the spec: `Some x` is a heap block, so `Is_some` is the
block test (`Is_block`), true exactly on non-immediate values. -/
def Is_some : OCamlValue → Bool
  | .vint _ => false
  | _ => true

/-- Modelled from the spec: a well-formed string value is a string block. -/
def Is_string : OCamlValue → Bool
  | .vstring _ => true
  | _ => false

/-- Modelled from the spec: a well-formed `string option` value is `None`
(the immediate `0`) or `Some s` (a tag-0 one-field block holding a string). -/
def Is_string_option : OCamlValue → Bool
  | .vint 0 => true
  | .vblock 0 [.vstring _] => true
  | _ => false

/-- Modelled from the spec: a well-formed `int option` value is `None` or
`Some n` with `n` a 63-bit OCaml immediate integer. -/
def Is_int_option : OCamlValue → Bool
  | .vint 0 => true
  | .vblock 0 [.vint n] => decide (-(2 ^ 62) ≤ n) && decide (n < 2 ^ 62)
  | _ => false

/-- Model of the runtime's table of values registered with
`Callback.register` (the source of `caml_named_value`). -/
abbrev CamlEnv := List (List Char × OCamlValue)

/-- Association-list lookup used to model the runtime's named-value table. -/
def lookupName : CamlEnv → List Char → Option OCamlValue
  | [], _ => none
  | (k, v) :: rest, n => if k == n then some v else lookupName rest n

/-- Model of `caml_named_value n`: a pointer to the registered value, or the
null pointer (`none`) when `n` is not registered. -/
def caml_named_value (env : CamlEnv) (n : List Char) : Option OCamlValue :=
  lookupName env n

/-- Model of `snprintf(msg, sizeof(msg), "%s not registered.", n)` with
`char msg[256]`: at most 255 characters are stored (plus the terminator), so
the formatted message is truncated to its first 255 characters. -/
def snprintf256_not_registered (n : List Char) : List Char :=
  (n ++ " not registered.".data).take 255

/-- Model of `caml_failwith msg`: diverts with a `Failure msg` exception. -/
def caml_failwith {α : Type} (msg : List Char) : Except CamlExn α :=
  .error (.failure msg)

/-- Model of `caml_raise v`: diverts with the exception value `v`. -/
def caml_raise {α : Type} (v : OCamlValue) : Except CamlExn α :=
  .error (.raised v)

/-- Model of `caml_raise_constant v`: diverts with the constant exception
value `v`. -/
def caml_raise_constant {α : Type} (v : OCamlValue) : Except CamlExn α :=
  .error (.raised v)

/-- Model of `named_value_exn` (lines 34-44): looks up `n`; if the pointer is
null it formats `"<n> not registered."` into a 256-byte buffer and calls
`caml_failwith`, otherwise it returns the (non-null) pointer. -/
def named_value_exn (env : CamlEnv) (n : List Char) :
    Except CamlExn (Option OCamlValue) :=
  let v := caml_named_value env n
  match v with
  | none => caml_failwith (snprintf256_not_registered n)
  | some w => .ok (some w)

/-- Dereference of a possibly-null `value*`; dereferencing null is undefined
behaviour in C and is modelled by a default value (never reached in
`raise_out_of_memory`, as `named_value_exn` only returns non-null). -/
def derefValuePtr (p : Option OCamlValue) : OCamlValue :=
  p.getD (.vint 0)

/-- Model of `raise_out_of_memory` (lines 46-52): looks up the registered
`Out_of_memory` exception via `named_value_exn` and raises it as a constant
exception.  The `assert` is a debug-build no-op in the model. -/
def raise_out_of_memory (env : CamlEnv) : Except CamlExn Unit :=
  match named_value_exn env ("Out_of_memory".data) with
  | .error e => .error e
  | .ok out_of_memory => caml_raise_constant (derefValuePtr out_of_memory)

/-- A block of native (`malloc`) memory: a byte buffer or an array of
`char*` cells. -/
inductive NBlock where
  | strB (data : List Nat)
  | arrB (data : List (Option Nat))

/-- The native heap: the list of blocks allocated so far; a pointer to a
block is its index in this list. -/
abbrev NativeHeap := List NBlock

/-- Shape of the block requested at a `malloc` call site: a byte buffer
(`length + 1` chars in `string_ocaml_to_c`) or a `char*` array
(`sizeof(char*) * length` in `array_map`). -/
inductive AllocKind where
  | bytesK
  | ptrsK

/-- The fresh, uninitialised block produced by `malloc` for a call site;
uninitialised cells are modelled as zeros / null pointers (callers overwrite
every cell before use, which the theorems below establish). -/
def mallocBlock : AllocKind → Nat → NBlock
  | .bytesK, count => .strB (List.replicate count 0)
  | .ptrsK, count => .arrB (List.replicate count none)

/-- Model of `malloc`: fails (returns the null pointer) when the oracle `ok`
is false, otherwise appends a fresh block to the heap and returns its
index. -/
def malloc (ok : Bool) (h : NativeHeap) (kind : AllocKind) (count : Nat) :
    NativeHeap × Option Nat :=
  if ok then (h ++ [mallocBlock kind count], some h.length) else (h, none)

/-- Model of `malloc_exn` (lines 54-59): calls `malloc`; if the result is
null it calls `raise_out_of_memory()` and (should that ever return) falls
through to returning the pointer; otherwise returns the pointer. -/
def malloc_exn (env : CamlEnv) (ok : Bool) (h : NativeHeap) (kind : AllocKind)
    (count : Nat) : Except CamlExn (NativeHeap × Option Nat) :=
  let res := malloc ok h kind count
  match res.2 with
  | none =>
    match raise_out_of_memory env with
    | .error e => .error e
    | .ok _ => .ok res
  | some _ => .ok res

/-- Overwrite one block of the native heap at index `p` (a write through an
out-of-range pointer leaves the heap unchanged; the theorems only ever write
through valid pointers). -/
def updateBlock (h : NativeHeap) (p : Nat) (g : NBlock → NBlock) : NativeHeap :=
  h.set p (g (h.getD p (.strB [])))

/-- Model of `memcpy` into the byte block at index `q`, overwriting its first
`data.length` bytes with `data`. -/
def memcpyBlock (h : NativeHeap) (q : Nat) (data : List Nat) : NativeHeap :=
  updateBlock h q fun b =>
    match b with
    | .strB old => .strB (data ++ old.drop data.length)
    | b => b

/-- Model of `memcpy` through a nullable pointer; copying through null is
undefined behaviour in C, modelled as a no-op (never reached:
`malloc_exn` diverts rather than return null). -/
def memcpyPtr (h : NativeHeap) (p : Option Nat) (data : List Nat) :
    NativeHeap :=
  match p with
  | none => h
  | some q => memcpyBlock h q data

/-- Model of `new_array[i] = r`: store a `char*` cell into the array block
pointed to by the nullable pointer `p` (null write: undefined behaviour,
modelled as a no-op and never reached). -/
def writeArr (h : NativeHeap) (p : Option Nat) (i : Nat) (r : Option Nat) :
    NativeHeap :=
  match p with
  | none => h
  | some q =>
    updateBlock h q fun b =>
      match b with
      | .arrB cells => .arrB (cells.set i r)
      | b => b

/-- Two's-complement reduction of a wider value into a 32-bit C `int`: this
models the store `*i = Long_val(...)` with `int* i`, and the assignment
`length = caml_string_length(s_v)` with `int length`, on a 64-bit
platform. -/
def wrapInt32 (n : Int) : Int :=
  (n + 2 ^ 31) % 2 ^ 32 - 2 ^ 31

/-- Conversion of a C `int` value to the 64-bit unsigned `size_t`, as in
`malloc_exn(length + 1)` and `memcpy(..., length + 1)`: reduction modulo
`2 ^ 64` (negative values wrap to huge sizes). -/
def toSizeT (n : Int) : Nat :=
  (n % 2 ^ 64).toNat

/-- Byte contents of a string block. -/
def string_bytes : OCamlValue → List Nat
  | .vstring bytes => bytes
  | _ => []

/-- Reading `n` bytes starting at `String_val(s)`: the OCaml runtime stores a
zero byte at index `caml_string_length s`, so the readable representation is
the logical bytes followed by a zero byte.  Reading past that is a C heap
overread (undefined behaviour), modelled by capping the copy there. -/
def readStringBytes (s : OCamlValue) (n : Nat) : List Nat :=
  (string_bytes s ++ [0]).take n

/-- Model of `string_ocaml_to_c` (lines 61-73): stores the string's length
(an `mlsize_t`) into the 32-bit `int length` — a two's-complement narrowing —
computes `length + 1` in `int` (wrapping; the overflow at `length = 2^31 - 1`
is undefined behaviour in C, modelled as the wrap), converts it to `size_t`,
allocates that many bytes through `malloc_exn`, and `memcpy`s that many bytes
of the string's representation into the new buffer, returning the buffer.
The debug `assert(Is_string(s_v))` is a precondition, carried by the
theorems, not a runtime check. -/
def string_ocaml_to_c (env : CamlEnv) (ok : Bool) (h : NativeHeap)
    (s_v : OCamlValue) : Except CamlExn (NativeHeap × Option Nat) :=
  let length : Int := wrapInt32 ((caml_string_length s_v : Int))
  let size : Nat := toSizeT (wrapInt32 (length + 1))
  match malloc_exn env ok h .bytesK size with
  | .error e => .error e
  | .ok (h2, s) => .ok (memcpyPtr h2 s (readStringBytes s_v size), s)

/-- Model of `string_of_ocaml_string_option` (lines 75-81): null pointer for
`None`, otherwise converts the payload `Field(v, 0)` via
`string_ocaml_to_c`. -/
def string_of_ocaml_string_option (env : CamlEnv) (ok : Bool) (h : NativeHeap)
    (v : OCamlValue) : Except CamlExn (NativeHeap × Option Nat) :=
  if Is_none v then .ok (h, none)
  else string_ocaml_to_c env ok h (Field v 0)

/-- Model of `int_of_ocaml_int_option` (lines 83-89).  `i` is the integer the
output parameter points at before the call; the result is the pair of the C
return value and the integer stored there after the call. -/
def int_of_ocaml_int_option (v : OCamlValue) (i : Int) : Int × Int :=
  let i2 := if Is_some v then wrapInt32 (Long_val (Field v 0)) else i
  (if Is_none v then 0 else 1, i2)

/-- Model of `caml_alloc_small size tag`: a fresh minor-heap block whose
fields are uninitialised (modelled as zeros; `raise_with_two_args`
initialises every field before use). -/
def caml_alloc_small (size : Nat) (tag : Nat) : OCamlValue :=
  .vblock tag (List.replicate size (.vint 0))

/-- Model of `Field(v, i) = x`: store into the `i`-th field of a block. -/
def setField (v : OCamlValue) (i : Nat) (x : OCamlValue) : OCamlValue :=
  match v with
  | .vblock tag fields => .vblock tag (fields.set i x)
  | v => v

/-- Model of `raise_with_two_args` (lines 20-32): allocates a 3-field tag-0
block, stores the tag and the two arguments into fields 0, 1, 2, and raises
it.  `Begin_roots3`/`End_roots` are GC bookkeeping with no observable effect
in this model. -/
def raise_with_two_args (tag arg1 arg2 : OCamlValue) : Except CamlExn Unit :=
  let v_exc := caml_alloc_small 3 0
  let v_exc := setField v_exc 0 tag
  let v_exc := setField v_exc 1 arg1
  let v_exc := setField v_exc 2 arg2
  caml_raise v_exc

/-- Model of `array_map` (lines 91-105): stores the array's length (an
`mlsize_t`) into `unsigned int length` — a well-defined wrap modulo
`2 ^ 32` — returns null when that wrapped length is zero, otherwise
allocates a native `char*` array of `length` cells
(`sizeof(char*) * length` bytes) through `malloc_exn` and fills cell `i`
with the conversion function applied to `Field(array, i)`, for
`i = 0, 1, ...` in order.

The conversion function is a C function pointer whose native side effects are
modelled by explicit threading of a state `σ`; it has no access to the
managed heap, so the documented `must not allocate on the caml heap`
precondition holds by construction in the model. -/
def array_map {σ : Type} (env : CamlEnv) (ok : Bool) (h : NativeHeap)
    (array : OCamlValue)
    (f__must_not_allocate_on_caml_heap : σ → OCamlValue → σ × Option Nat)
    (s : σ) : Except CamlExn (σ × NativeHeap × Option Nat) :=
  let length := Wosize_val array % 2 ^ 32
  if length = 0 then .ok (s, h, none)
  else
    match malloc_exn env ok h .ptrsK length with
    | .error e => .error e
    | .ok (h2, new_array) =>
      let step := fun (acc : σ × NativeHeap) (i : Nat) =>
        let s1 := acc.1
        let h1 := acc.2
        let r := f__must_not_allocate_on_caml_heap s1 (Field array i)
        (r.1, writeArr h1 new_array i r.2)
      let res := (List.range length).foldl step (s, h2)
      .ok (res.1, res.2, new_array)

/-- Specification-side helper: apply `f` to the elements of `vs` from left to
right, once per element, threading the state and accumulating the results in
order. -/
def mapChainAcc {σ α : Type} (f : σ → OCamlValue → σ × α) (s : σ)
    (vs : List OCamlValue) : σ × List α :=
  vs.foldl (fun acc v => ((f acc.1 v).1, acc.2 ++ [(f acc.1 v).2])) (s, [])

/-! ## Helper lemmas -/

theorem is_string_option_shape (v : OCamlValue)
    (hvalid : Is_string_option v = true) :
    v = .vint 0 ∨ ∃ bs, v = .vblock 0 [.vstring bs] := by
  unfold Is_string_option at hvalid
  split at hvalid
  · exact .inl rfl
  · exact .inr ⟨_, rfl⟩
  · simp at hvalid

theorem is_int_option_shape (v : OCamlValue)
    (hvalid : Is_int_option v = true) :
    v = .vint 0 ∨ ∃ n, v = .vblock 0 [.vint n] ∧ -(2 ^ 62) ≤ n ∧ n < 2 ^ 62 := by
  unfold Is_int_option at hvalid
  split at hvalid
  · exact .inl rfl
  · simp only [Bool.and_eq_true, decide_eq_true_eq] at hvalid
    exact .inr ⟨_, rfl, hvalid.1, hvalid.2⟩
  · simp at hvalid

theorem raise_out_of_memory_diverts (env : CamlEnv) :
    ∃ e, raise_out_of_memory env = Except.error e := by
  cases hl : lookupName env ("Out_of_memory".data) with
  | none =>
    refine ⟨.failure (snprintf256_not_registered ("Out_of_memory".data)), ?_⟩
    simp [raise_out_of_memory, named_value_exn, caml_named_value, hl,
      caml_failwith]
  | some w =>
    refine ⟨.raised w, ?_⟩
    simp [raise_out_of_memory, named_value_exn, caml_named_value, hl,
      caml_raise_constant, derefValuePtr]

theorem malloc_exn_ok (env : CamlEnv) (h : NativeHeap) (kind : AllocKind)
    (count : Nat) :
    malloc_exn env true h kind count =
      .ok (h ++ [mallocBlock kind count], some h.length) := rfl

theorem malloc_exn_fail (env : CamlEnv) (h : NativeHeap) (kind : AllocKind)
    (count : Nat) :
    ∃ e, malloc_exn env false h kind count = .error e ∧
      raise_out_of_memory env = .error e := by
  obtain ⟨e, he⟩ := raise_out_of_memory_diverts env
  exact ⟨e, by simp [malloc_exn, malloc, he], he⟩

/-! ## Claim theorems: named-value lookup and exception raising -/

/-- C7: `raise_with_two_args` builds a three-slot, tag-0 exception record on
the managed heap whose slot 0 is the tag, slot 1 the first argument and
slot 2 the second argument, and always diverts control to the runtime's
exception-raising mechanism, never returning normally. -/
theorem raise_with_two_args_diverts (tag arg1 arg2 : OCamlValue) :
    raise_with_two_args tag arg1 arg2 =
      .error (.raised (.vblock 0 [tag, arg1, arg2])) ∧
    Wosize_val (.vblock 0 [tag, arg1, arg2]) = 3 ∧
    Field (.vblock 0 [tag, arg1, arg2]) 0 = tag ∧
    Field (.vblock 0 [tag, arg1, arg2]) 1 = arg1 ∧
    Field (.vblock 0 [tag, arg1, arg2]) 2 = arg2 :=
  ⟨rfl, rfl, rfl, rfl, rfl⟩

/-- C8: whenever `named_value_exn` returns normally, the returned pointer is
non-null, so callers such as `raise_out_of_memory` may dereference it without
a null check. -/
theorem named_value_exn_not_null (env : CamlEnv) (n : List Char)
    (p : Option OCamlValue) (hret : named_value_exn env n = .ok p) :
    p ≠ none := by
  simp only [named_value_exn] at hret
  cases hl : caml_named_value env n with
  | none => rw [hl] at hret; simp [caml_failwith] at hret
  | some w =>
    rw [hl] at hret
    simp only [Except.ok.injEq] at hret
    rw [← hret]
    simp

/-- Witness for C8 at a concrete registered name. -/
theorem named_value_exn_not_null_witness :
    named_value_exn [(("Out_of_memory".data), OCamlValue.vint 5)]
        ("Out_of_memory".data) = .ok (some (OCamlValue.vint 5)) ∧
    (some (OCamlValue.vint 5) : Option OCamlValue) ≠ none :=
  ⟨rfl, named_value_exn_not_null [(("Out_of_memory".data), OCamlValue.vint 5)]
    ("Out_of_memory".data) (some (OCamlValue.vint 5)) rfl⟩

/-- C3 (amended): for every unregistered name of at most 239 characters,
`named_value_exn` diverts through the runtime's failure mechanism with a
message that is exactly the name followed by `" not registered."`; longer
names overflow the 256-byte message buffer and the message is truncated to
the first 255 characters of that string. -/
theorem named_value_exn_unregistered (env : CamlEnv) (n : List Char)
    (habs : lookupName env n = none) (hlen : n.length ≤ 239) :
    named_value_exn env n =
      .error (.failure (n ++ " not registered.".data)) := by
  have h16 : (" not registered.".data).length = 16 := rfl
  have hm : snprintf256_not_registered n = n ++ " not registered.".data := by
    unfold snprintf256_not_registered
    apply List.take_of_length_le
    rw [List.length_append, h16]
    omega
  simp [named_value_exn, caml_named_value, habs, caml_failwith, hm]

/-- Witness for C3's amended statement at a concrete unregistered name. -/
theorem named_value_exn_unregistered_witness :
    lookupName [] ("x".data) = none ∧ ("x".data).length ≤ 239 ∧
    named_value_exn [] ("x".data) =
      .error (.failure ("x".data ++ " not registered.".data)) :=
  ⟨rfl, by decide, named_value_exn_unregistered [] _ rfl (by decide)⟩

/-- C3 counterexample: for the unregistered 300-character name `aa…a` the
256-byte `snprintf` buffer truncates the formatted message to 255
characters, so the raised failure message does not contain the queried name
at all (no decomposition of the message has the name as a middle factor) and
is not of the form `"<name> not registered."`, refuting the claim as stated
for arbitrary names. -/
theorem named_value_exn_truncates_counterexample :
    ∃ m, named_value_exn [] (List.replicate 300 'a') =
        Except.error (.failure m) ∧
      m.length = 255 ∧ (List.replicate 300 'a').length = 300 ∧
      (∀ l1 l2 : List Char, m ≠ l1 ++ List.replicate 300 'a' ++ l2) ∧
      m ≠ List.replicate 300 'a' ++ " not registered.".data := by
  have h16 : (" not registered.".data).length = 16 := rfl
  have hlen : (snprintf256_not_registered (List.replicate 300 'a')).length
      = 255 := by
    unfold snprintf256_not_registered
    rw [List.length_take, List.length_append, List.length_replicate, h16]
    omega
  refine ⟨snprintf256_not_registered (List.replicate 300 'a'), rfl, hlen,
    List.length_replicate 300 'a', ?_, ?_⟩
  · intro l1 l2 hc
    rw [hc, List.append_assoc] at hlen
    rw [List.length_append, List.length_append, List.length_replicate] at hlen
    omega
  · intro hc
    rw [hc, List.length_append, List.length_replicate, h16] at hlen
    omega

/-- C4: `malloc_exn` never returns a null pointer to its caller: either the
underlying allocation succeeds and it returns the fresh non-null block
pointer, or the allocation fails and it diverts with exactly the exception
produced by `raise_out_of_memory` instead of returning. -/
theorem malloc_exn_never_null (env : CamlEnv) (ok : Bool) (h : NativeHeap)
    (kind : AllocKind) (count : Nat) :
    (ok = false ∧ ∃ e, malloc_exn env ok h kind count = .error e ∧
        raise_out_of_memory env = .error e) ∨
    (ok = true ∧ malloc_exn env ok h kind count =
        .ok (h ++ [mallocBlock kind count], some h.length)) := by
  cases ok
  · exact .inl ⟨rfl, malloc_exn_fail env h kind count⟩
  · exact .inr ⟨rfl, malloc_exn_ok env h kind count⟩

/-! ## Helper lemmas about native-heap writes -/

theorem set_concat {α : Type} (l : List α) (b x : α) :
    (l ++ [b]).set l.length x = l ++ [x] := by
  induction l with
  | nil => rfl
  | cons a t ih => simp [ih]

theorem getD_concat {α : Type} (l : List α) (b d : α) :
    (l ++ [b]).getD l.length d = b := by
  simp [List.getD_eq_getElem?_getD, List.getElem?_concat_length]

theorem updateBlock_concat (h : NativeHeap) (b : NBlock) (g : NBlock → NBlock) :
    updateBlock (h ++ [b]) h.length g = h ++ [g b] := by
  unfold updateBlock
  rw [getD_concat, set_concat]

theorem memcpyBlock_concat_replicate (h : NativeHeap) (count : Nat)
    (data : List Nat) (hlen : data.length = count) :
    memcpyBlock (h ++ [.strB (List.replicate count 0)]) h.length data =
      h ++ [.strB data] := by
  unfold memcpyBlock
  rw [updateBlock_concat]
  have hdrop : (List.replicate count (0 : Nat)).drop data.length = [] :=
    List.drop_of_length_le (by rw [List.length_replicate, hlen])
  show h ++ [NBlock.strB (data ++ (List.replicate count 0).drop data.length)]
      = h ++ [NBlock.strB data]
  rw [hdrop, List.append_nil]

theorem string_ocaml_to_c_ok (env : CamlEnv) (h : NativeHeap) (bs : List Nat)
    (hlen : bs.length ≤ 2 ^ 31 - 2) :
    string_ocaml_to_c env true h (.vstring bs) =
      .ok (h ++ [.strB (bs ++ [0])], some h.length) := by
  have hsize : toSizeT (wrapInt32 (wrapInt32
      ((caml_string_length (.vstring bs) : Int)) + 1)) = bs.length + 1 := by
    have hcl : caml_string_length (.vstring bs) = bs.length := rfl
    rw [hcl]
    unfold toSizeT wrapInt32
    omega
  have hread : readStringBytes (.vstring bs) (bs.length + 1) = bs ++ [0] := by
    unfold readStringBytes string_bytes
    apply List.take_of_length_le
    simp
  simp only [string_ocaml_to_c, hsize, malloc_exn_ok, mallocBlock,
    memcpyPtr, hread]
  rw [memcpyBlock_concat_replicate h (bs.length + 1) (bs ++ [0]) (by simp)]

theorem string_ocaml_to_c_fail (env : CamlEnv) (h : NativeHeap)
    (s_v : OCamlValue) :
    ∃ e, string_ocaml_to_c env false h s_v = .error e := by
  obtain ⟨e, he, _⟩ := malloc_exn_fail env h .bytesK
    (toSizeT (wrapInt32 (wrapInt32 ((caml_string_length s_v : Int)) + 1)))
  exact ⟨e, by simp only [string_ocaml_to_c, he]⟩

theorem string_ocaml_to_c_ptr (env : CamlEnv) (h : NativeHeap)
    (s_v : OCamlValue) :
    ∃ h2, string_ocaml_to_c env true h s_v = .ok (h2, some h.length) := by
  refine ⟨memcpyPtr
      (h ++ [mallocBlock .bytesK (toSizeT (wrapInt32 (wrapInt32
        ((caml_string_length s_v : Int)) + 1)))])
      (some h.length)
      (readStringBytes s_v (toSizeT (wrapInt32 (wrapInt32
        ((caml_string_length s_v : Int)) + 1)))), ?_⟩
  simp only [string_ocaml_to_c, malloc_exn_ok]

/-! ## Claim theorems: string and int option conversion -/

/-- C1 (amended): for a valid string option, `string_of_ocaml_string_option`
returns the null native pointer on `None` (native heap untouched, for either
allocation outcome), and on `Some s` with the length of `s` at most
`2 ^ 31 - 2` — so the narrowing into `int length` is value-preserving and
`length + 1` does not overflow — when the allocation succeeds it returns a
pointer to a freshly allocated native buffer — a new block appended to the
native heap, distinct from the managed string — whose bytes are exactly the
bytes of `s` followed by a single trailing zero byte, one byte more than the
length of `s`.  (For longer strings the `int` narrowing truncates the size;
see the counterexample.) -/
theorem string_of_ocaml_string_option_spec (env : CamlEnv) (h : NativeHeap)
    (v : OCamlValue) (bs : List Nat) (hvalid : Is_string_option v = true) :
    (v = .vint 0 →
      ∀ ok, string_of_ocaml_string_option env ok h v = .ok (h, none)) ∧
    (v = .vblock 0 [.vstring bs] → bs.length ≤ 2 ^ 31 - 2 →
      string_of_ocaml_string_option env true h v =
        .ok (h ++ [.strB (bs ++ [0])], some h.length) ∧
      (bs ++ [0]).length = bs.length + 1) := by
  constructor
  · rintro rfl ok
    rfl
  · rintro rfl hlen
    refine ⟨?_, by simp⟩
    show string_ocaml_to_c env true h (.vstring bs) = _
    exact string_ocaml_to_c_ok env h bs hlen

/-- Witness for C1's amended statement on the concrete string option
`Some "hi"`. -/
theorem string_of_ocaml_string_option_spec_witness :
    Is_string_option (.vblock 0 [.vstring [104, 105]]) = true ∧
    ([104, 105] : List Nat).length ≤ 2 ^ 31 - 2 ∧
    string_of_ocaml_string_option [] true [] (.vblock 0 [.vstring [104, 105]])
      = .ok ([.strB [104, 105, 0]], some 0) := by
  refine ⟨rfl, by decide, ?_⟩
  have hspec := string_of_ocaml_string_option_spec [] []
    (.vblock 0 [.vstring [104, 105]]) [104, 105] rfl
  simpa using (hspec.2 rfl (by decide)).1

/-- C1 counterexample: a managed string of `2 ^ 32 + 5` bytes is a valid
OCaml string on a 64-bit platform, but `int length = caml_string_length(s_v)`
narrows its length to `5`, so the code allocates 6 bytes and copies only the
first 5 bytes plus a terminator — not a buffer one byte larger than the
string holding all its bytes, refuting the claim for arbitrary valid
inputs. -/
theorem string_of_ocaml_string_option_counterexample :
    Is_string_option
      (.vblock 0 [.vstring (List.replicate (2 ^ 32 + 5) 7)]) = true ∧
    string_of_ocaml_string_option [] true []
        (.vblock 0 [.vstring (List.replicate (2 ^ 32 + 5) 7)]) =
      .ok ([.strB (List.replicate 6 7)], some 0) ∧
    (List.replicate 6 (7 : Nat)).length ≠
      (List.replicate (2 ^ 32 + 5) (7 : Nat)).length + 1 := by
  refine ⟨rfl, ?_, ?_⟩
  · show string_ocaml_to_c [] true []
        (.vstring (List.replicate (2 ^ 32 + 5) 7)) = _
    have hcl : caml_string_length
        (.vstring (List.replicate (2 ^ 32 + 5) (7 : Nat))) = 2 ^ 32 + 5 := by
      show (List.replicate (2 ^ 32 + 5) (7 : Nat)).length = 2 ^ 32 + 5
      exact List.length_replicate _ _
    have hsize : toSizeT (wrapInt32 (wrapInt32 ((caml_string_length
        (.vstring (List.replicate (2 ^ 32 + 5) (7 : Nat))) : Int)) + 1))
        = 6 := by
      rw [hcl]
      unfold toSizeT wrapInt32
      omega
    have hdata : readStringBytes
        (.vstring (List.replicate (2 ^ 32 + 5) (7 : Nat))) 6 =
        List.replicate 6 7 := by
      unfold readStringBytes string_bytes
      rw [List.take_append_of_le_length
        (by rw [List.length_replicate]; omega)]
      rw [List.take_replicate]
      congr 1
    simp only [string_ocaml_to_c, hsize, hdata]
    rfl
  · rw [List.length_replicate, List.length_replicate]
    omega

/-- C9: whenever `string_of_ocaml_string_option` returns normally on a valid
string option — for either allocation outcome — the result pointer is null
exactly when the option is `None`; in the `Some` case the pointer is never
null, because the underlying allocation either succeeds or diverts via
exception. -/
theorem string_of_ocaml_string_option_null_iff (env : CamlEnv) (ok : Bool)
    (h : NativeHeap) (v : OCamlValue) (h2 : NativeHeap) (p : Option Nat)
    (hvalid : Is_string_option v = true)
    (hret : string_of_ocaml_string_option env ok h v = .ok (h2, p)) :
    p = none ↔ Is_none v = true := by
  rcases is_string_option_shape v hvalid with rfl | ⟨bs, rfl⟩
  · have : p = none := by
      have h0 : string_of_ocaml_string_option env ok h (.vint 0) =
          .ok (h, none) := rfl
      rw [h0] at hret
      exact (Prod.mk.injEq _ _ _ _ ▸ (Except.ok.injEq _ _ ▸ hret)).2.symm
    simp [this, Is_none]
  · cases ok
    · obtain ⟨e, he⟩ := string_ocaml_to_c_fail env h (.vstring bs)
      have : string_of_ocaml_string_option env false h
          (.vblock 0 [.vstring bs]) = .error e := by
        show string_ocaml_to_c env false h (.vstring bs) = .error e
        exact he
      rw [this] at hret
      exact absurd hret (by simp)
    · obtain ⟨h3, hok⟩ := string_ocaml_to_c_ptr env h (.vstring bs)
      have : string_of_ocaml_string_option env true h
          (.vblock 0 [.vstring bs]) = .ok (h3, some h.length) := by
        show string_ocaml_to_c env true h (.vstring bs) = _
        exact hok
      rw [this] at hret
      have hp : p = some h.length :=
        ((Prod.mk.injEq _ _ _ _ ▸ (Except.ok.injEq _ _ ▸ hret)).2).symm
      simp [hp, Is_none]

/-- Witness for C9 on the concrete string option `Some ""` with a succeeding
allocation. -/
theorem string_of_ocaml_string_option_null_iff_witness :
    Is_string_option (.vblock 0 [.vstring []]) = true ∧
    string_of_ocaml_string_option [] true [] (.vblock 0 [.vstring []]) =
      .ok ([.strB [0]], some 0) ∧
    ((some 0 : Option Nat) = none ↔
      Is_none (.vblock 0 [.vstring []]) = true) := by
  have hret : string_of_ocaml_string_option [] true []
      (.vblock 0 [.vstring []]) = .ok ([.strB [0]], some 0) := by rfl
  exact ⟨rfl, hret, string_of_ocaml_string_option_null_iff [] true []
    (.vblock 0 [.vstring []]) [.strB [0]] (some 0) rfl hret⟩

/-- C2 (amended): on a valid int option and any prior contents of the output
parameter, `int_of_ocaml_int_option` returns 0 and leaves the output
parameter unchanged for `None`; for `Some n` it returns 1 and stores `n`
reduced two's-complement to the 32-bit width of the native `int` output
parameter — a value equal to `n` exactly when `n` fits in a 32-bit `int`. -/
theorem int_of_ocaml_int_option_spec (v : OCamlValue) (i : Int)
    (hvalid : Is_int_option v = true) :
    (v = .vint 0 → int_of_ocaml_int_option v i = (0, i)) ∧
    (∀ n, v = .vblock 0 [.vint n] →
      int_of_ocaml_int_option v i = (1, wrapInt32 n) ∧
      (-(2 ^ 31) ≤ n → n < 2 ^ 31 → wrapInt32 n = n)) := by
  constructor
  · rintro rfl
    rfl
  · rintro n rfl
    refine ⟨rfl, fun hlo hhi => ?_⟩
    unfold wrapInt32
    omega

/-- Witness for C2's amended statement on the concrete option `Some 7`. -/
theorem int_of_ocaml_int_option_spec_witness :
    Is_int_option (.vblock 0 [.vint 7]) = true ∧
    int_of_ocaml_int_option (.vblock 0 [.vint 7]) 3 = (1, 7) := by
  refine ⟨by decide, ?_⟩
  have hs := (int_of_ocaml_int_option_spec (.vblock 0 [.vint 7]) 3
    (by decide)).2 7 rfl
  have h1 := hs.1
  rw [hs.2 (by decide) (by decide)] at h1
  exact h1

/-- C2 counterexample: `2 ^ 31` is a valid 63-bit OCaml integer, so
`Some (2 ^ 31)` is a valid int option, but the store `*i = Long_val(...)`
through the 32-bit `int` output parameter truncates it: the stored value is
`-(2 ^ 31)`, not the wrapped integer `2 ^ 31`, refuting the claim that the
stored value always equals `n`. -/
theorem int_of_ocaml_int_option_counterexample :
    Is_int_option (.vblock 0 [.vint (2 ^ 31)]) = true ∧
    int_of_ocaml_int_option (.vblock 0 [.vint (2 ^ 31)]) 0 =
      (1, -(2 ^ 31)) ∧
    (-(2 ^ 31) : Int) ≠ 2 ^ 31 := by
  refine ⟨by decide, by decide, by decide⟩

/-! ## Helper lemmas about the array-map loop -/

theorem writeArr_concat (h : NativeHeap) (cells : List (Option Nat)) (i : Nat)
    (r : Option Nat) :
    writeArr (h ++ [.arrB cells]) (some h.length) i r =
      h ++ [.arrB (cells.set i r)] := by
  show updateBlock (h ++ [NBlock.arrB cells]) h.length
      (fun b => match b with
        | NBlock.arrB cells => NBlock.arrB (cells.set i r)
        | b => b) = _
  rw [updateBlock_concat]

theorem foldl_writeArr_concat {σ : Type} (f : σ → OCamlValue → σ × Option Nat)
    (array : OCamlValue) (h : NativeHeap) (idxs : List Nat) :
    ∀ (s : σ) (cells : List (Option Nat)),
    idxs.foldl
        (fun acc i => ((f acc.1 (Field array i)).1,
          writeArr acc.2 (some h.length) i (f acc.1 (Field array i)).2))
        (s, h ++ [.arrB cells]) =
      ((idxs.foldl
          (fun acc i => ((f acc.1 (Field array i)).1,
            acc.2.set i (f acc.1 (Field array i)).2)) (s, cells)).1,
       h ++ [.arrB (idxs.foldl
          (fun acc i => ((f acc.1 (Field array i)).1,
            acc.2.set i (f acc.1 (Field array i)).2)) (s, cells)).2]) := by
  induction idxs with
  | nil =>
    intro s cells
    rfl
  | cons j rest ih =>
    intro s cells
    simp only [List.foldl_cons]
    rw [writeArr_concat]
    exact ih _ _

theorem mapChainAcc_snoc {σ α : Type} (f : σ → OCamlValue → σ × α) (s : σ)
    (vs : List OCamlValue) (x : OCamlValue) :
    mapChainAcc f s (vs ++ [x]) =
      ((f (mapChainAcc f s vs).1 x).1,
       (mapChainAcc f s vs).2 ++ [(f (mapChainAcc f s vs).1 x).2]) := by
  unfold mapChainAcc
  rw [List.foldl_append]
  rfl

theorem foldl_acc_length {σ α : Type} (f : σ → OCamlValue → σ × α) :
    ∀ (vs : List OCamlValue) (init : σ × List α),
    ((vs.foldl (fun acc v => ((f acc.1 v).1, acc.2 ++ [(f acc.1 v).2]))
        init).2).length = init.2.length + vs.length := by
  intro vs
  induction vs with
  | nil =>
    intro init
    simp
  | cons v rest ih =>
    intro init
    simp only [List.foldl_cons]
    rw [ih]
    simp [List.length_append]
    omega

theorem mapChainAcc_length {σ α : Type} (f : σ → OCamlValue → σ × α) (s : σ)
    (vs : List OCamlValue) : (mapChainAcc f s vs).2.length = vs.length := by
  unfold mapChainAcc
  rw [foldl_acc_length]
  simp

theorem foldl_acc_fst {σ α : Type} (f : σ → OCamlValue → σ × α) :
    ∀ (vs : List OCamlValue) (init : σ × List α),
    (vs.foldl (fun acc v => ((f acc.1 v).1, acc.2 ++ [(f acc.1 v).2]))
        init).1 = vs.foldl (fun s1 v => (f s1 v).1) init.1 := by
  intro vs
  induction vs with
  | nil =>
    intro init
    rfl
  | cons v rest ih =>
    intro init
    simp only [List.foldl_cons]
    rw [ih]

theorem mapChainAcc_fst {σ α : Type} (f : σ → OCamlValue → σ × α) (s : σ)
    (vs : List OCamlValue) :
    (mapChainAcc f s vs).1 = vs.foldl (fun s1 v => (f s1 v).1) s := by
  unfold mapChainAcc
  rw [foldl_acc_fst]

theorem mapChainAcc_pure (fp : OCamlValue → Option Nat)
    (vs : List OCamlValue) :
    mapChainAcc (fun (s : Unit) v => (s, fp v)) () vs = ((), vs.map fp) := by
  induction vs using List.reverseRecOn with
  | nil => rfl
  | append_singleton vs x ih =>
    rw [mapChainAcc_snoc, ih]
    simp

theorem foldl_set_range {σ : Type} (f : σ → OCamlValue → σ × Option Nat)
    (t : Nat) (fields : List OCamlValue) :
    ∀ (k : Nat), k ≤ fields.length → ∀ (s : σ),
    (List.range k).foldl
        (fun acc i => ((f acc.1 (Field (.vblock t fields) i)).1,
          acc.2.set i (f acc.1 (Field (.vblock t fields) i)).2))
        (s, List.replicate fields.length none) =
      ((mapChainAcc f s (fields.take k)).1,
       (mapChainAcc f s (fields.take k)).2 ++
         List.replicate (fields.length - k) none) := by
  intro k
  induction k with
  | zero =>
    intro hk s
    simp [mapChainAcc]
  | succ k ih =>
    intro hk s
    have hklt : k < fields.length := by omega
    rw [List.range_succ, List.foldl_append, ih (by omega) s]
    simp only [List.foldl_cons, List.foldl_nil]
    have hfield : Field (.vblock t fields) k = fields[k] := by
      simp only [Field]
      exact List.getD_eq_getElem fields (.vint 0) hklt
    have htake : fields.take (k + 1) = fields.take k ++ [fields[k]] := by
      rw [List.take_succ, List.getElem?_eq_getElem hklt]
      rfl
    have hlen2 : (mapChainAcc f s (fields.take k)).2.length = k := by
      rw [mapChainAcc_length, List.length_take]
      omega
    have hrep : List.replicate (fields.length - k) (none : Option Nat) =
        none :: List.replicate (fields.length - (k + 1)) none := by
      have hsub : fields.length - k = (fields.length - (k + 1)) + 1 := by omega
      rw [hsub, List.replicate_succ]
    rw [htake, mapChainAcc_snoc, hfield, List.set_append,
      if_neg (by rw [hlen2]; omega), hlen2, Nat.sub_self, hrep]
    simp

theorem array_map_ok {σ : Type} (env : CamlEnv) (h : NativeHeap) (t : Nat)
    (fields : List OCamlValue) (f : σ → OCamlValue → σ × Option Nat) (s : σ)
    (hne : fields ≠ []) (hlt : fields.length < 2 ^ 32) :
    array_map env true h (.vblock t fields) f s =
      .ok ((mapChainAcc f s fields).1,
        h ++ [.arrB (mapChainAcc f s fields).2], some h.length) := by
  have hne0 : ¬ (fields.length = 0) := by
    simpa [List.length_eq_zero] using hne
  have hmod : fields.length % 2 ^ 32 = fields.length := Nat.mod_eq_of_lt hlt
  simp only [array_map, Wosize_val, hmod, malloc_exn_ok, mallocBlock]
  rw [if_neg hne0]
  rw [foldl_writeArr_concat f (.vblock t fields) h (List.range fields.length)
    s (List.replicate fields.length none)]
  rw [foldl_set_range f t fields fields.length (Nat.le_refl _) s]
  rw [List.take_length, Nat.sub_self]
  simp

/-! ## Claim theorems: array mapping -/

/-- C6: `array_map` applied to a zero-length managed array returns the null
native pointer, performs no native allocation (the native heap is unchanged,
for either allocation-oracle outcome), and performs no call to the conversion
function: the threaded state comes back untouched and the result does not
depend on the function at all. -/
theorem array_map_empty {σ : Type} (env : CamlEnv) (ok : Bool)
    (h : NativeHeap) (t : Nat) (f : σ → OCamlValue → σ × Option Nat)
    (s : σ) :
    array_map env ok h (.vblock t []) f s = .ok (s, h, none) := rfl

/-- C5 (amended): `array_map` on a non-empty managed array of
`n < 2 ^ 32` elements — so the narrowing into `unsigned int length` is
value-preserving — with a conversion function (which cannot touch the
managed heap in this model, satisfying the no-managed-allocation
precondition by construction), when the allocation succeeds, returns a
freshly allocated native array of `n` cells whose cell at index `i` is the
conversion function applied to the managed array's element at index `i`,
preserving the original order.  (For `n` a non-zero multiple of `2 ^ 32` the
wrapped length is zero and the code returns null unmapped; see the
counterexample.) -/
theorem array_map_maps (env : CamlEnv) (h : NativeHeap) (t : Nat)
    (fields : List OCamlValue) (fp : OCamlValue → Option Nat)
    (hne : fields ≠ []) (hlt : fields.length < 2 ^ 32) :
    array_map env true h (.vblock t fields) (fun (s : Unit) v => (s, fp v)) ()
      = .ok ((), h ++ [.arrB (fields.map fp)], some h.length) ∧
    (fields.map fp).length = fields.length ∧
    ∀ i, i < fields.length →
      (fields.map fp).getD i none = fp (fields.getD i (.vint 0)) := by
  refine ⟨?_, by simp, fun i hi => ?_⟩
  · rw [array_map_ok env h t fields _ () hne hlt, mapChainAcc_pure]
  · rw [List.getD_eq_getElem (fields.map fp) none (by simpa using hi),
      List.getD_eq_getElem fields (.vint 0) hi, List.getElem_map]

/-- Witness for C5's amended statement on a concrete two-element array of
strings, converting each element to its length. -/
theorem array_map_maps_witness :
    array_map [] true [] (.vblock 0 [.vstring [97], .vstring [98, 99]])
        (fun (s : Unit) v => (s, some (caml_string_length v))) () =
      .ok ((), [.arrB [some 1, some 2]], some 0) := by
  have hm := (array_map_maps [] [] 0 [.vstring [97], .vstring [98, 99]]
    (fun v => some (caml_string_length v)) (by simp) (by decide)).1
  exact hm

/-- C5 counterexample: a managed array of `2 ^ 32` elements (valid on a
64-bit platform) is non-empty, yet `unsigned int length = Wosize_val(array)`
wraps its length to zero, so the code returns the null pointer with no
allocation and no mapping — not a per-element native array — refuting the
claim for arbitrary `n > 0`. -/
theorem array_map_maps_counterexample :
    List.replicate (2 ^ 32) (OCamlValue.vint 0) ≠ [] ∧
    array_map [] true [] (.vblock 0 (List.replicate (2 ^ 32) (.vint 0)))
        (fun (s : Unit) _ => (s, some 1)) () = .ok ((), [], none) := by
  constructor
  · intro hc
    have hl := congrArg List.length hc
    rw [List.length_replicate, List.length_nil] at hl
    omega
  · have hw : Wosize_val
        (.vblock 0 (List.replicate (2 ^ 32) (OCamlValue.vint 0))) =
        2 ^ 32 := by
      show (List.replicate (2 ^ 32) (OCamlValue.vint 0)).length = 2 ^ 32
      exact List.length_replicate _ _
    simp only [array_map, hw, Nat.mod_self]
    rfl

/-- C10 (amended): `array_map` on a non-empty array of `n < 2 ^ 32` elements
— so the narrowing into `unsigned int length` is value-preserving — calls
the conversion function exactly once per element and in strictly increasing
index order: for every state type `σ` the final threaded state is the
left-to-right fold of the function over the array's fields (element 0 first,
element `n - 1` last), each call receiving exactly the field read at that
iteration, and the result cells are the corresponding per-call results in
the same order.  (For `n` a non-zero multiple of `2 ^ 32` the wrapped length
is zero and the function is never called; see the counterexample.) -/
theorem array_map_call_order {σ : Type} (env : CamlEnv) (h : NativeHeap)
    (t : Nat) (fields : List OCamlValue)
    (f : σ → OCamlValue → σ × Option Nat) (s : σ) (hne : fields ≠ [])
    (hlt : fields.length < 2 ^ 32) :
    array_map env true h (.vblock t fields) f s =
      .ok (fields.foldl (fun s1 v => (f s1 v).1) s,
        h ++ [.arrB (mapChainAcc f s fields).2], some h.length) ∧
    (mapChainAcc f s fields).2.length = fields.length := by
  refine ⟨?_, mapChainAcc_length f s fields⟩
  rw [array_map_ok env h t fields f s hne hlt, mapChainAcc_fst]

/-- Witness for C10's amended statement on a concrete two-element array with
a conversion function that records the integers it is called on, in
order. -/
theorem array_map_call_order_witness :
    array_map [] true [] (.vblock 0 [.vint 5, .vint 9])
        (fun (s : List Int) v => (s ++ [Long_val v], none)) [] =
      .ok ([5, 9], [.arrB [none, none]], some 0) := by
  have hm := (array_map_call_order [] [] 0 [.vint 5, .vint 9]
    (fun (s : List Int) v => (s ++ [Long_val v], none)) [] (by simp)
    (by decide)).1
  exact hm

/-- C10 counterexample: on a managed array of `2 ^ 32` elements — non-empty
— the `unsigned int` narrowing makes the loop bound zero, so the conversion
function is called zero times (a call-counting state stays at 0), not once
per element as the claim requires. -/
theorem array_map_call_order_counterexample :
    List.replicate (2 ^ 32) (OCamlValue.vint 1) ≠ [] ∧
    array_map [] true [] (.vblock 0 (List.replicate (2 ^ 32) (.vint 1)))
        (fun (s : Nat) _ => (s + 1, none)) 0 = .ok (0, [], none) ∧
    (0 : Nat) ≠ (List.replicate (2 ^ 32) (OCamlValue.vint 1)).length := by
  refine ⟨?_, ?_, ?_⟩
  · intro hc
    have hl := congrArg List.length hc
    rw [List.length_replicate, List.length_nil] at hl
    omega
  · have hw : Wosize_val
        (.vblock 0 (List.replicate (2 ^ 32) (OCamlValue.vint 1))) =
        2 ^ 32 := by
      show (List.replicate (2 ^ 32) (OCamlValue.vint 1)).length = 2 ^ 32
      exact List.length_replicate _ _
    simp only [array_map, hw, Nat.mod_self]
    rfl
  · rw [List.length_replicate]
    omega

end OcamlUtils
